import Mathlib

/-! Rulesync canonical/tool command conversion — a verification development.

A shallow embedding of the rulesync converter pipeline between the canonical
record type (`RulesyncCommand`) and a tool artifact type (`CodexcliCommand`),
together with the frontmatter parser/serializer, schema validation and the
target predicate.  The per-tool implementation classes are not part of the
source excerpt (only their tests and one subclass are), so the operations are
modelled from the specification, anchored on the concrete values the test
suite fixes (directory names, schema fields, error behaviour).
-/

namespace Rulesync

/-! ## Frontmatter values

Frontmatter is an open mapping from string keys to simple scalar/list values
(spec §4.1: "mapping of string to value"). -/

/-- A frontmatter value: string, boolean, or list of strings (the shapes the
canonical and tool schemas use: `description : string`, `targets : string list`,
and scalar flags such as `invalid: true` in the tests). -/
inductive FmValue where
  | str (s : String)
  | bool (b : Bool)
  | list (xs : List String)
deriving DecidableEq

/-- An open frontmatter mapping: association list of key/value pairs. -/
def Frontmatter := List (String × FmValue)
deriving DecidableEq

/-! ## Escaping

The serializer writes one `key:value` line per frontmatter entry.  Keys and
string payloads are escaped so that no literal newline, colon or comma
survives into the serialized line, which is what makes the serialize/parse
round trip exact (spec §8). -/

/-- Escape one character for use inside a serialized frontmatter line. -/
def escChar (c : Char) : List Char :=
  if c = '\\' then ['\\', '\\']
  else if c = '\n' then ['\\', 'n']
  else if c = ':' then ['\\', 'c']
  else if c = ',' then ['\\', 'm']
  else [c]

/-- Escape a character sequence. -/
def esc (cs : List Char) : List Char := cs.flatMap escChar

/-- Inverse of `esc`. -/
def unesc : List Char → List Char
  | [] => []
  | [c] => [c]
  | c1 :: c2 :: rest =>
    if c1 = '\\' then
      (if c2 = 'n' then '\n' else if c2 = 'c' then ':' else if c2 = 'm' then ',' else c2)
        :: unesc rest
    else c1 :: unesc (c2 :: rest)

/-! ## Value and line codec -/

/-- Encode the elements of a string list, each element preceded by a comma. -/
def encList (xs : List String) : List Char :=
  xs.flatMap (fun x => ',' :: esc x.data)

/-- Serialize one frontmatter value, tagged by its shape. -/
def encodeVal : FmValue → List Char
  | .str s => 's' :: esc s.data
  | .bool true => ['b', '1']
  | .bool false => ['b', '0']
  | .list xs => 'l' :: encList xs

/-- Split a comma-separated character sequence into its chunks. -/
def splitCommaAux (acc : List Char) : List Char → List (List Char)
  | [] => [acc.reverse]
  | c :: rest =>
    if c = ',' then acc.reverse :: splitCommaAux [] rest
    else splitCommaAux (c :: acc) rest

/-- Decode a serialized string list (each element preceded by a comma). -/
def decodeListChars : List Char → Option (List String)
  | [] => some []
  | c :: rest =>
    if c = ',' then some ((splitCommaAux [] rest).map (fun l => String.mk (unesc l)))
    else none

/-- Decode one tagged frontmatter value. -/
def decodeVal : List Char → Option FmValue
  | 's' :: rest => some (.str (String.mk (unesc rest)))
  | ['b', '1'] => some (.bool true)
  | ['b', '0'] => some (.bool false)
  | 'l' :: rest => (decodeListChars rest).map .list
  | _ => none

/-- Split a line at its first colon. -/
def splitAtColon : List Char → Option (List Char × List Char)
  | [] => none
  | c :: rest =>
    if c = ':' then some ([], rest)
    else
      match splitAtColon rest with
      | some (k, v) => some (c :: k, v)
      | none => none

/-- Serialize one frontmatter entry as an escaped `key:value` line. -/
def encodeLine (kv : String × FmValue) : List Char :=
  esc kv.1.data ++ ':' :: encodeVal kv.2

/-- Parse one `key:value` line back into a frontmatter entry. -/
def parseLine (line : List Char) : Option (String × FmValue) :=
  match splitAtColon line with
  | none => none
  | some (k, v) =>
    match decodeVal v with
    | none => none
    | some val => some (String.mk (unesc k), val)

/-! ## Frontmatter parser and serializer (spec §4.1, §6)

A file is an optional leading delimited metadata block (`---` fences, one
`key:value` pair per line, closed by `---` and a blank line) followed by the
body.  A file with no opening fence parses as empty frontmatter plus the whole
text as the body; an opened but unclosed block is a `ParseError` (`none`). -/

/-- Accumulating line scanner for the metadata block: `acc` holds the current
line (reversed).  Returns the parsed entries and the remaining body characters,
or `none` for an unterminated block or a malformed line. -/
def parseFmAux (acc : List Char) : List Char → Option (List (String × FmValue) × List Char)
  | [] => none
  | c :: rest =>
    if c = '\n' then
      if acc.reverse = ['-', '-', '-'] then
        match rest with
        | '\n' :: body => some ([], body)
        | _ => none
      else
        match parseLine acc.reverse, parseFmAux [] rest with
        | some kv, some (fm, body) => some (kv :: fm, body)
        | _, _ => none
    else parseFmAux (c :: acc) rest

/-- Modelled from the spec: the frontmatter parser (§4.1).  Splits an optional
leading delimited metadata block from the body; `none` is the `ParseError`
outcome (block opened but not closed / malformed). -/
def parseFile (text : String) : Option (Frontmatter × String) :=
  match text.data with
  | '-' :: '-' :: '-' :: '\n' :: rest =>
    match parseFmAux [] rest with
    | some (fm, body) => some (fm, String.mk body)
    | none => none
  | _ => some (([] : List (String × FmValue)), text)

/-- Modelled from the spec: the serializer writing a frontmatter block and a
body back to file text (§6, §8: the serializer the round-trip property is
about). -/
def stringifyFrontmatter (fm : Frontmatter) (body : String) : String :=
  String.mk
    (['-', '-', '-', '\n']
      ++ (fm.flatMap (fun kv => encodeLine kv ++ ['\n']))
      ++ ['-', '-', '-', '\n', '\n']
      ++ body.data)

/-! ## Schema validation (spec §4.2)

A schema is a list of required fields with their expected shapes.  Validation
is pure, never rewrites the input mapping, and collects an issue for *every*
missing or mistyped required field; unknown keys are ignored (open map). -/

/-- Expected shape of a required frontmatter field. -/
inductive FmType where
  | str
  | bool
  | list
deriving DecidableEq

/-- Does a value have the given shape? -/
def typeMatches : FmType → FmValue → Bool
  | .str, .str _ => true
  | .bool, .bool _ => true
  | .list, .list _ => true
  | _, _ => false

/-- A field-level validation issue: field name and problem kind. -/
def FieldIssue := String × String
deriving DecidableEq

/-- Check one required field of a schema against a frontmatter mapping. -/
def checkField (fm : Frontmatter) (req : String × FmType) : Option FieldIssue :=
  match List.lookup req.1 fm with
  | none => some (req.1, "required")
  | some v => if typeMatches req.2 v then none else some (req.1, "invalid_type")

/-- Modelled from the spec: the schema validator (§4.2).  Returns the input
mapping unchanged on success, or the full list of field-level issues. -/
def validateFrontmatter (schema : List (String × FmType)) (fm : Frontmatter) :
    Except (List FieldIssue) Frontmatter :=
  match schema.filterMap (checkField fm) with
  | [] => .ok fm
  | issues => .error issues

/-- Modelled from the spec: the tool command frontmatter schema — the single
required field `description : string`, extra keys tolerated (§4.2, data
model `ToolFrontmatter`). -/
def SimulatedCommandFrontmatterSchema : List (String × FmType) :=
  [("description", FmType.str)]

/-! ## Data model (spec §3) -/

/-- Canonical command frontmatter: an optional `targets` list plus a
`description`. -/
structure RulesyncCommandFrontmatter where
  targets : Option (List String)
  description : String
deriving DecidableEq

/-- The canonical record for commands (`.rulesync/commands`). -/
structure RulesyncCommand where
  baseDir : String := "."
  relativeDirPath : String
  relativeFilePath : String
  frontmatter : RulesyncCommandFrontmatter
  body : String
  fileContent : String
deriving DecidableEq

/-- The codexcli tool artifact for commands: base directory, the tool's fixed
relative directory, relative file name, open frontmatter mapping and body. -/
structure CodexcliCommand where
  baseDir : String
  relativeDirPath : String
  relativeFilePath : String
  frontmatter : Frontmatter
  body : String
deriving DecidableEq

/-- A settable-paths registry entry (spec §4.5). -/
structure ToolCommandSettablePaths where
  relativeDirPath : String
deriving DecidableEq

/-- Modelled from the spec: the codexcli settable-path registry entry; the
test suite fixes it to `.codex/prompts`. -/
def codexcliGetSettablePaths : ToolCommandSettablePaths :=
  { relativeDirPath := ".codex/prompts" }

/-- The fixed directory codexcli command artifacts are read from and written
to (the test suite fixes `.codex/commands`, distinct from the registry
entry — the read/write asymmetry of spec §4.5). -/
def codexcliCommandsDirPath : String := ".codex/commands"

/-! ## Target predicate (spec §4.4) -/

/-- Modelled from the spec: the shared target predicate over a canonical
record's optional `targets` list (§4.4): absent targets means all tools,
otherwise the wildcard `*` or the literal tool id must occur. -/
def isTargetedBy (targets : Option (List String)) (toolId : String) : Bool :=
  match targets with
  | none => true
  | some ts => ts.contains "*" || ts.contains toolId

/-- The codexcli instantiation of the target predicate. -/
def codexcliIsTargetedByRulesyncCommand (rc : RulesyncCommand) : Bool :=
  isTargetedBy rc.frontmatter.targets "codexcli"

/-- Canonical subagent frontmatter (targets plus description). -/
structure RulesyncSubagentFrontmatter where
  targets : Option (List String)
  description : String
deriving DecidableEq

/-- The canonical record for subagents. -/
structure RulesyncSubagent where
  relativeDirPath : String
  relativeFilePath : String
  frontmatter : RulesyncSubagentFrontmatter
  body : String
deriving DecidableEq

/-- `AgentsmdSubagent.isTargetedByRulesyncSubagent`: delegates to the shared
default with tool target `"agentsmd"` (src/subagents/agentsmd-subagent.ts). -/
def agentsmdIsTargetedByRulesyncSubagent (rs : RulesyncSubagent) : Bool :=
  isTargetedBy rs.frontmatter.targets "agentsmd"

/-- `AgentsmdSubagent.getSettablePaths` (src/subagents/agentsmd-subagent.ts). -/
def agentsmdGetSettablePaths : ToolCommandSettablePaths :=
  { relativeDirPath := ".agents/subagents" }

/-! ## Conversion operations (spec §4.3) -/

/-- Read the `description` field out of an open frontmatter mapping
(defaulting to the empty string, as the schema guarantees presence on
validated artifacts). -/
def descriptionOf (fm : Frontmatter) : String :=
  match List.lookup "description" fm with
  | some (.str s) => s
  | _ => ""

/-- Modelled from the spec: `fromCanonicalRecord` for codexcli (§4.3) — maps
the canonical frontmatter to the tool schema (dropping `targets`, keeping
`description`), preserves body and relative file name, and fixes the
artifact's directory to the tool's command directory (the test suite fixes
`.codex/commands`). -/
def codexcliFromRulesyncCommand (baseDir : String) (rc : RulesyncCommand)
    (_validate : Bool) : CodexcliCommand :=
  { baseDir := baseDir
    relativeDirPath := codexcliCommandsDirPath
    relativeFilePath := rc.relativeFilePath
    frontmatter := [("description", FmValue.str rc.frontmatter.description)]
    body := rc.body }

/-- The canonical frontmatter of a record regenerated from a tool artifact:
`targets` is the wildcard set, `description` is carried over. -/
def canonicalFrontmatterOf (c : CodexcliCommand) : RulesyncCommandFrontmatter :=
  { targets := some ["*"], description := descriptionOf c.frontmatter }

/-- Modelled from the spec: `toCanonicalRecord` for codexcli (§4.3) — wraps
the artifact's frontmatter into canonical form, setting `targets` to the
wildcard since a single tool artifact carries no multi-target information;
`fileContent` is regenerated from the canonical frontmatter and body. -/
def codexcliToRulesyncCommand (c : CodexcliCommand) : RulesyncCommand :=
  { baseDir := c.baseDir
    relativeDirPath := ".rulesync/commands"
    relativeFilePath := c.relativeFilePath
    frontmatter := canonicalFrontmatterOf c
    body := c.body
    fileContent :=
      stringifyFrontmatter
        [("targets", FmValue.list ["*"]),
         ("description", FmValue.str (descriptionOf c.frontmatter))]
        c.body }

/-! ## Errors, filesystem, and the file factory (spec §4.3, §7) -/

/-- The error kinds of the pipeline (spec §7). -/
inductive CommandError where
  | fileNotFound (path : String)
  | parseError
  | validationError (issues : List FieldIssue)
deriving DecidableEq

/-- An explicit filesystem: finite map from paths to file contents. -/
structure FS where
  files : List (String × String)
deriving DecidableEq

/-- Read a file, `none` when absent. -/
def FS.read (fs : FS) (p : String) : Option String :=
  List.lookup p fs.files

/-- Strip directory components, keeping the last `/`-separated segment. -/
def basenameAux (acc : List Char) : List Char → List Char
  | [] => acc.reverse
  | c :: rest => if c = '/' then basenameAux [] rest else basenameAux (c :: acc) rest

/-- The basename of a relative path. -/
def basename (p : String) : String :=
  String.mk (basenameAux [] p.data)

/-- The full path codexcli `fromFile` reads from:
`baseDir/.codex/commands/relativeFilePath`. -/
def codexPath (baseDir relativeFilePath : String) : String :=
  baseDir ++ "/" ++ codexcliCommandsDirPath ++ "/" ++ relativeFilePath

/-- Modelled from the spec: `fromFile` for codexcli (§4.3) — reads the file
at the tool's fixed directory, parses frontmatter and body, validates against
the tool schema when requested, and fails with `fileNotFound`, `parseError`
or `validationError` accordingly; the artifact records only the basename of
the relative path. -/
def codexcliFromFile (fs : FS) (baseDir relativeFilePath : String)
    (validate : Bool) : Except CommandError CodexcliCommand :=
  match fs.read (codexPath baseDir relativeFilePath) with
  | none => .error (.fileNotFound (codexPath baseDir relativeFilePath))
  | some content =>
    match parseFile content with
    | none => .error .parseError
    | some (fm, body) =>
      if validate then
        match validateFrontmatter SimulatedCommandFrontmatterSchema fm with
        | .error issues => .error (.validationError issues)
        | .ok fm' =>
          .ok { baseDir := baseDir
                relativeDirPath := codexcliCommandsDirPath
                relativeFilePath := basename relativeFilePath
                frontmatter := fm'
                body := body }
      else
        .ok { baseDir := baseDir
              relativeDirPath := codexcliCommandsDirPath
              relativeFilePath := basename relativeFilePath
              frontmatter := fm
              body := body }

/-! ## Construction and deferred validation -/

/-- Result object of the instance `validate()` method: success flag plus an
error that is `none` exactly on success. -/
structure ValidationResult where
  success : Bool
  error : Option (List FieldIssue)
deriving DecidableEq

/-- The instance `validate()` method: re-checks the stored frontmatter
against the tool schema and returns a result object instead of throwing. -/
def CodexcliCommand.validateResult (c : CodexcliCommand) : ValidationResult :=
  match validateFrontmatter SimulatedCommandFrontmatterSchema c.frontmatter with
  | .ok _ => { success := true, error := none }
  | .error issues => { success := false, error := some issues }

/-- Modelled from the spec: the artifact constructor — when `validate` is
true a schema violation is an error (a thrown exception in the source); when
`validate` is false construction always succeeds and validation is
deferred to `validateResult`. -/
def mkCodexcliCommand (baseDir relativeDirPath relativeFilePath : String)
    (fm : Frontmatter) (body : String) (validate : Bool) :
    Except CommandError CodexcliCommand :=
  let c : CodexcliCommand :=
    { baseDir := baseDir
      relativeDirPath := relativeDirPath
      relativeFilePath := relativeFilePath
      frontmatter := fm
      body := body }
  if validate then
    match validateFrontmatter SimulatedCommandFrontmatterSchema fm with
    | .error issues => .error (.validationError issues)
    | .ok _ => .ok c
  else .ok c

/-! ## Witness data -/

/-- A canonical record matching the one the test suite feeds to
`fromRulesyncCommand`. -/
def sampleRulesyncCommand : RulesyncCommand :=
  { baseDir := "."
    relativeDirPath := ".rulesync/commands"
    relativeFilePath := "test-command.md"
    frontmatter := { targets := some ["codexcli"], description := "Test description from rulesync" }
    body := "Test command content"
    fileContent := "" }

/-- Does the file text open with a frontmatter fence? -/
def hasFmBlock (s : String) : Bool :=
  match s.data with
  | '-' :: '-' :: '-' :: '\n' :: _ => true
  | _ => false

/-- A filesystem holding one file without a frontmatter block and one file
whose frontmatter lacks `description`, under the codexcli command
directory. -/
def errorWitnessFS : FS :=
  ⟨[("proj/.codex/commands/no-frontmatter.md",
     "This is just plain content without frontmatter."),
    ("proj/.codex/commands/invalid-command.md",
     stringifyFrontmatter [("invalid", FmValue.bool true)] "Body content")]⟩

/-- The artifact `fromFile` produces for the nested-path witness file. -/
def nestedCmd : CodexcliCommand :=
  { baseDir := "proj"
    relativeDirPath := codexcliCommandsDirPath
    relativeFilePath := "nested-command.md"
    frontmatter := [("description", FmValue.str "Test codexcli command description")]
    body := "Nested body" }

/-- A filesystem holding a valid command file under a subdirectory of the
codexcli command directory. -/
def nestedFS : FS :=
  ⟨[("proj/.codex/commands/subdir/nested-command.md",
     stringifyFrontmatter
       [("description", FmValue.str "Test codexcli command description")]
       "Nested body")]⟩

/-! ## Lemmas -/

theorem unesc_cons_of_ne (c : Char) (h : c ≠ '\\') (cs : List Char) :
    unesc (c :: cs) = c :: unesc cs := by
  cases cs with
  | nil => simp [unesc]
  | cons d ds => simp [unesc, h]

theorem unesc_esc (cs : List Char) : unesc (esc cs) = cs := by
  induction cs with
  | nil => simp [esc, unesc]
  | cons c rest ih =>
    show unesc (escChar c ++ esc rest) = c :: rest
    by_cases h1 : c = '\\'
    · subst h1; simp [escChar, unesc, ih]
    · by_cases h2 : c = '\n'
      · subst h2; simp [escChar, unesc, ih]
      · by_cases h3 : c = ':'
        · subst h3; simp [escChar, unesc, ih]
        · by_cases h4 : c = ','
          · subst h4; simp [escChar, unesc, ih]
          · have : escChar c = [c] := by simp [escChar, h1, h2, h3, h4]
            rw [this]
            simpa [unesc_cons_of_ne c h1 (esc rest)] using congrArg (c :: ·) ih

theorem mem_escChar_not_special (c d : Char) (hd : d ∈ escChar c) :
    d ≠ '\n' ∧ d ≠ ':' ∧ d ≠ ',' := by
  unfold escChar at hd
  split at hd
  · simp at hd; subst hd; decide
  · split at hd
    · simp at hd; rcases hd with h | h <;> subst h <;> decide
    · split at hd
      · simp at hd; rcases hd with h | h <;> subst h <;> decide
      · split at hd
        · simp at hd; rcases hd with h | h <;> subst h <;> decide
        · simp at hd; subst hd
          rename_i h1 h2 h3 h4
          exact ⟨h2, h3, h4⟩

theorem mem_esc_not_special {d : Char} {cs : List Char} (h : d ∈ esc cs) :
    d ≠ '\n' ∧ d ≠ ':' ∧ d ≠ ',' := by
  simp only [esc, List.mem_flatMap] at h
  obtain ⟨c, _, hd⟩ := h
  exact mem_escChar_not_special c d hd

theorem splitAtColon_append {l : List Char} (hl : ∀ c ∈ l, c ≠ ':') (v : List Char) :
    splitAtColon (l ++ ':' :: v) = some (l, v) := by
  induction l with
  | nil => simp [splitAtColon]
  | cons c rest ih =>
    have hc : c ≠ ':' := hl c (List.mem_cons_self c rest)
    have ih' := ih (fun d hd => hl d (List.mem_cons_of_mem c hd))
    simp [splitAtColon, hc, ih']

theorem string_mk_data (s : String) : String.mk s.data = s := rfl

theorem splitCommaAux_append {l : List Char} (hl : ∀ c ∈ l, c ≠ ',') (acc cs : List Char) :
    splitCommaAux acc (l ++ cs) = splitCommaAux (l.reverse ++ acc) cs := by
  induction l generalizing acc with
  | nil => simp
  | cons c rest ih =>
    have hc : c ≠ ',' := hl c (List.mem_cons_self c rest)
    have ih' := ih (fun d hd => hl d (List.mem_cons_of_mem c hd)) (c :: acc)
    simp [splitCommaAux, hc, ih']

theorem splitCommaAux_encList (xs : List String) (x : String) :
    splitCommaAux [] (esc x.data ++ encList xs)
      = esc x.data :: xs.map (fun y => esc y.data) := by
  induction xs generalizing x with
  | nil =>
    rw [splitCommaAux_append (fun c hc => (mem_esc_not_special hc).2.2) [] (encList [])]
    simp [encList, splitCommaAux]
  | cons y rest ih =>
    rw [splitCommaAux_append (fun c hc => (mem_esc_not_special hc).2.2) [] (encList (y :: rest))]
    have : encList (y :: rest) = ',' :: (esc y.data ++ encList rest) := by
      simp [encList]
    rw [this]
    simp [splitCommaAux, ih y]

theorem decodeListChars_encList (xs : List String) :
    decodeListChars (encList xs) = some xs := by
  cases xs with
  | nil => simp [encList, decodeListChars]
  | cons x rest =>
    have : encList (x :: rest) = ',' :: (esc x.data ++ encList rest) := by
      simp [encList]
    rw [this]
    simp only [decodeListChars, if_pos rfl, splitCommaAux_encList rest x]
    have he : ∀ y : String, String.mk (unesc (esc y.data)) = y := by
      intro y; rw [unesc_esc]
    simp [unesc_esc, string_mk_data, List.map_map, Function.comp_def, he]

theorem decodeVal_encodeVal (v : FmValue) : decodeVal (encodeVal v) = some v := by
  cases v with
  | str s => simp [encodeVal, decodeVal, unesc_esc, string_mk_data]
  | bool b => cases b <;> rfl
  | list xs => simp [encodeVal, decodeVal, decodeListChars_encList]

theorem parseLine_encodeLine (kv : String × FmValue) :
    parseLine (encodeLine kv) = some kv := by
  obtain ⟨k, v⟩ := kv
  unfold encodeLine parseLine
  rw [splitAtColon_append (fun c hc => (mem_esc_not_special hc).2.1) (encodeVal v)]
  simp [decodeVal_encodeVal, unesc_esc, string_mk_data]

theorem parseFmAux_line {l : List Char} (hl : ∀ c ∈ l, c ≠ '\n') (acc cs : List Char) :
    parseFmAux acc (l ++ cs) = parseFmAux (l.reverse ++ acc) cs := by
  induction l generalizing acc with
  | nil => simp
  | cons c rest ih =>
    have hc : c ≠ '\n' := hl c (List.mem_cons_self c rest)
    have ih' := ih (fun d hd => hl d (List.mem_cons_of_mem c hd)) (c :: acc)
    simp [parseFmAux, hc, ih']

theorem mem_encodeLine_ne_newline (kv : String × FmValue) :
    ∀ c ∈ encodeLine kv, c ≠ '\n' := by
  intro c hc
  obtain ⟨k, v⟩ := kv
  simp only [encodeLine, List.mem_append, List.mem_cons] at hc
  rcases hc with hc | hc | hc
  · exact (mem_esc_not_special hc).1
  · subst hc; decide
  · cases v with
    | str s =>
      simp only [encodeVal, List.mem_cons] at hc
      rcases hc with hc | hc
      · subst hc; decide
      · exact (mem_esc_not_special hc).1
    | bool b =>
      cases b <;> simp only [encodeVal, List.mem_cons] at hc <;>
        rcases hc with hc | hc | hc <;> first | (subst hc; decide) | simp at hc
    | list xs =>
      simp only [encodeVal, List.mem_cons] at hc
      rcases hc with hc | hc
      · subst hc; decide
      · simp only [encList, List.mem_flatMap, List.mem_cons] at hc
        obtain ⟨x, _, hc⟩ := hc
        rcases hc with hc | hc
        · subst hc; decide
        · exact (mem_esc_not_special hc).1

theorem colon_mem_encodeLine (kv : String × FmValue) : ':' ∈ encodeLine kv := by
  obtain ⟨k, v⟩ := kv
  simp [encodeLine]

theorem encodeLine_ne_fence (kv : String × FmValue) :
    encodeLine kv ≠ ['-', '-', '-'] := by
  intro h
  have := colon_mem_encodeLine kv
  rw [h] at this
  simp at this

theorem parseFmAux_encode (fm : List (String × FmValue)) (body : List Char) :
    parseFmAux []
        ((fm.flatMap (fun kv => encodeLine kv ++ ['\n']))
          ++ ['-', '-', '-', '\n', '\n'] ++ body)
      = some (fm, body) := by
  induction fm with
  | nil => simp [parseFmAux]
  | cons kv rest ih =>
    have hstep :
        (((kv :: rest).flatMap (fun kv => encodeLine kv ++ ['\n']))
            ++ ['-', '-', '-', '\n', '\n'] ++ body)
          = encodeLine kv
              ++ ('\n' :: ((rest.flatMap (fun kv => encodeLine kv ++ ['\n']))
                    ++ ['-', '-', '-', '\n', '\n'] ++ body)) := by
      simp
    rw [hstep, parseFmAux_line (mem_encodeLine_ne_newline kv) []]
    have hfence : (encodeLine kv).reverse.reverse ≠ ['-', '-', '-'] := by
      simpa using encodeLine_ne_fence kv
    simp only [List.append_nil, parseFmAux, if_pos rfl, List.reverse_reverse] at hfence ⊢
    rw [if_neg hfence]
    simp only [List.append_assoc, List.cons_append, List.nil_append] at ih
    simp [parseLine_encodeLine kv, ih]

/-- Serialize-then-parse is the identity on frontmatter/body pairs. -/
theorem parseFile_stringifyFrontmatter (fm : Frontmatter) (body : String) :
    parseFile (stringifyFrontmatter fm body) = some (fm, body) := by
  have h := parseFmAux_encode fm body.data
  simp only [List.append_assoc, List.cons_append, List.nil_append] at h
  unfold parseFile stringifyFrontmatter
  simp only [List.append_assoc, List.cons_append, List.nil_append]
  rw [h]

/-! ## Claim theorems -/

/-- C1: the target predicate returns true when `targets` is absent, true when
it contains the wildcard `*`, true when it contains the tool id (possibly
among others), false for any list excluding both (in particular any nonempty
one), and its value is invariant under permutation of the `targets` list. -/
theorem c1_isTargetedBy_correct (ts : List String) (tid : String) :
    isTargetedBy none tid = true
  ∧ ("*" ∈ ts → isTargetedBy (some ts) tid = true)
  ∧ (tid ∈ ts → isTargetedBy (some ts) tid = true)
  ∧ ("*" ∉ ts → tid ∉ ts → isTargetedBy (some ts) tid = false)
  ∧ (∀ ts', ts.Perm ts' → isTargetedBy (some ts) tid = isTargetedBy (some ts') tid) := by
  refine ⟨rfl, ?_, ?_, ?_, ?_⟩
  · intro h; simp [isTargetedBy, h]
  · intro h; simp [isTargetedBy, h]
  · intro h1 h2; simp [isTargetedBy, h1, h2]
  · intro ts' hperm; simp [isTargetedBy, hperm.mem_iff]

/-- Witness for C1 at concrete inputs, matching the test suite's cases for
`isTargetedByRulesyncCommand`. -/
theorem c1_isTargetedBy_correct_witness :
    isTargetedBy (some ["*"]) "codexcli" = true
  ∧ isTargetedBy (some ["cursor", "codexcli", "claudecode"]) "codexcli" = true
  ∧ isTargetedBy (some ["cursor"]) "codexcli" = false
  ∧ isTargetedBy (some ["cursor", "codexcli"]) "codexcli"
      = isTargetedBy (some ["codexcli", "cursor"]) "codexcli" :=
  ⟨(c1_isTargetedBy_correct ["*"] "codexcli").2.1 (by decide),
   (c1_isTargetedBy_correct ["cursor", "codexcli", "claudecode"] "codexcli").2.2.1 (by decide),
   (c1_isTargetedBy_correct ["cursor"] "codexcli").2.2.2.1 (by decide) (by decide),
   (c1_isTargetedBy_correct ["cursor", "codexcli"] "codexcli").2.2.2.2
     ["codexcli", "cursor"] (by decide)⟩

/-- C2 counterexample: for codexcli the artifact produced by
`fromRulesyncCommand` lives in `.codex/commands`, which differs from the
settable-path registry entry `.codex/prompts` returned by
`getSettablePaths`. -/
theorem c2_settable_path_counterexample :
    (codexcliFromRulesyncCommand "." sampleRulesyncCommand true).relativeDirPath
      ≠ codexcliGetSettablePaths.relativeDirPath := by
  decide

/-- C2 (amended): `fromRulesyncCommand` fixes the artifact's
`relativeDirPath` to the tool's fixed command directory (`.codex/commands`
for codexcli), independent of the input record; this directory need not
coincide with the `getSettablePaths` registry entry. -/
theorem c2_fromCanonical_fixes_dir (baseDir : String) (rc : RulesyncCommand) (v : Bool) :
    (codexcliFromRulesyncCommand baseDir rc v).relativeDirPath = codexcliCommandsDirPath :=
  rfl

/-- C3: converting a canonical record to a codexcli artifact and back yields
a record whose `targets` is the wildcard set, whatever the original
`targets` were — the multi-target information is lost on the round trip. -/
theorem c3_roundtrip_targets_wildcard (baseDir : String) (rc : RulesyncCommand) (v : Bool) :
    (codexcliToRulesyncCommand (codexcliFromRulesyncCommand baseDir rc v)).frontmatter.targets
      = some ["*"] :=
  rfl

/-- C4: `fromRulesyncCommand` preserves body and relative file name, maps
the frontmatter to the tool schema dropping `targets` and carrying
`description` over unchanged, and is deterministic (the `validate` flag does
not change the produced artifact). -/
theorem c4_fromCanonical_preserves (baseDir : String) (rc : RulesyncCommand) (v : Bool) :
    (codexcliFromRulesyncCommand baseDir rc v).body = rc.body
  ∧ (codexcliFromRulesyncCommand baseDir rc v).relativeFilePath = rc.relativeFilePath
  ∧ (codexcliFromRulesyncCommand baseDir rc v).frontmatter
      = [("description", FmValue.str rc.frontmatter.description)]
  ∧ (∀ v₂ : Bool, codexcliFromRulesyncCommand baseDir rc v₂
      = codexcliFromRulesyncCommand baseDir rc v) :=
  ⟨rfl, rfl, rfl, fun _ => rfl⟩

/-- C5: validation fails on any frontmatter missing `description`, reporting
exactly that field; a non-string `description` also fails, again reported on
that field; and in general an error enumerates an issue for every failing
required field of the schema, not just the first. -/
theorem c5_missing_description_fails (fm : Frontmatter) :
    (List.lookup "description" fm = none →
       validateFrontmatter SimulatedCommandFrontmatterSchema fm
         = .error [("description", "required")])
  ∧ (∀ v, List.lookup "description" fm = some v → typeMatches FmType.str v = false →
       validateFrontmatter SimulatedCommandFrontmatterSchema fm
         = .error [("description", "invalid_type")])
  ∧ (∀ (schema : List (String × FmType)) (issues : List FieldIssue),
       validateFrontmatter schema fm = .error issues →
       ∀ req ∈ schema, ∀ i, checkField fm req = some i → i ∈ issues) := by
  refine ⟨?_, ?_, ?_⟩
  · intro h
    simp [validateFrontmatter, SimulatedCommandFrontmatterSchema, checkField, h]
  · intro v hv ht
    simp [validateFrontmatter, SimulatedCommandFrontmatterSchema, checkField, hv, ht]
  · intro schema issues hval req hreq i hi
    unfold validateFrontmatter at hval
    split at hval
    · exact absurd hval (by simp)
    · have : issues = schema.filterMap (checkField fm) := (Except.error.inj hval).symm
      rw [this]
      exact List.mem_filterMap.mpr ⟨req, hreq, hi⟩

/-- Witness for C5: a frontmatter with only an unknown key fails with the
`description` field required; a boolean `description` fails as mistyped; the
enumeration conjunct instantiated at the empty mapping. -/
theorem c5_missing_description_fails_witness :
    validateFrontmatter SimulatedCommandFrontmatterSchema [("invalid", FmValue.bool true)]
      = .error [("description", "required")]
  ∧ validateFrontmatter SimulatedCommandFrontmatterSchema [("description", FmValue.bool true)]
      = .error [("description", "invalid_type")]
  ∧ ("description", "required") ∈ [(("description" : String), ("required" : String))] :=
  ⟨(c5_missing_description_fails [("invalid", FmValue.bool true)]).1 rfl,
   (c5_missing_description_fails [("description", FmValue.bool true)]).2.1
     (FmValue.bool true) rfl rfl,
   (c5_missing_description_fails []).2.2 SimulatedCommandFrontmatterSchema
     [("description", "required")] rfl ("description", FmType.str) (by decide)
     ("description", "required") rfl⟩

theorem validateFrontmatter_ok_of_description {fm : Frontmatter} {s : String}
    (h : List.lookup "description" fm = some (FmValue.str s)) :
    validateFrontmatter SimulatedCommandFrontmatterSchema fm = .ok fm := by
  simp [validateFrontmatter, SimulatedCommandFrontmatterSchema, checkField, h, typeMatches]

/-- C6: any frontmatter carrying a string `description` validates, whatever
other unknown keys it carries; the validated output is the input mapping
itself, so unknown keys are preserved and the input is not rewritten. -/
theorem c6_extra_keys_preserved (fm : Frontmatter) (s : String) :
    List.lookup "description" fm = some (FmValue.str s) →
    validateFrontmatter SimulatedCommandFrontmatterSchema fm = .ok fm :=
  fun h => validateFrontmatter_ok_of_description h

/-- Witness for C6: a frontmatter with `description` plus unknown,
untype-checked extra keys validates to itself. -/
theorem c6_extra_keys_preserved_witness :
    validateFrontmatter SimulatedCommandFrontmatterSchema
        [("description", FmValue.str "Command with extra properties"),
         ("extra", FmValue.str "property"), ("flag", FmValue.bool true)]
      = .ok [("description", FmValue.str "Command with extra properties"),
             ("extra", FmValue.str "property"), ("flag", FmValue.bool true)] :=
  c6_extra_keys_preserved
    [("description", FmValue.str "Command with extra properties"),
     ("extra", FmValue.str "property"), ("flag", FmValue.bool true)]
    "Command with extra properties" rfl

theorem parseFile_of_no_block {s : String} (h : hasFmBlock s = false) :
    parseFile s = some (([] : List (String × FmValue)), s) := by
  unfold hasFmBlock at h
  unfold parseFile
  split
  · rename_i heq
    rw [heq] at h
    simp at h
  · rfl

/-- C7: `fromFile` fails with `fileNotFound` when no file exists at
`baseDir/.codex/commands/relativeFilePath`; fails with `validationError`
when validation is requested and the parsed frontmatter violates the tool
schema; and a file with no frontmatter block parses to empty frontmatter,
which lacks `description` and therefore also fails validation — never a
silent recovery. -/
theorem c7_fromFile_errors (fs : FS) (baseDir rel : String) :
    (fs.read (codexPath baseDir rel) = none →
       codexcliFromFile fs baseDir rel true
         = .error (.fileNotFound (codexPath baseDir rel)))
  ∧ (∀ content fm body issues,
       fs.read (codexPath baseDir rel) = some content →
       parseFile content = some (fm, body) →
       validateFrontmatter SimulatedCommandFrontmatterSchema fm = .error issues →
       codexcliFromFile fs baseDir rel true = .error (.validationError issues))
  ∧ (∀ content,
       fs.read (codexPath baseDir rel) = some content →
       hasFmBlock content = false →
       codexcliFromFile fs baseDir rel true
         = .error (.validationError [("description", "required")])) := by
  refine ⟨?_, ?_, ?_⟩
  · intro h
    simp [codexcliFromFile, h]
  · intro content fm body issues hread hparse hval
    simp [codexcliFromFile, hread, hparse, hval]
  · intro content hread hblock
    have hparse := parseFile_of_no_block hblock
    have hval : validateFrontmatter SimulatedCommandFrontmatterSchema
        ([] : List (String × FmValue)) = .error [("description", "required")] := rfl
    simp [codexcliFromFile, hread, hparse, hval]

/-- Witness for C7: a missing file, an invalid-frontmatter file and a
frontmatter-less file each produce the specified error. -/
theorem c7_fromFile_errors_witness :
    codexcliFromFile errorWitnessFS "proj" "missing.md" true
      = .error (.fileNotFound (codexPath "proj" "missing.md"))
  ∧ codexcliFromFile errorWitnessFS "proj" "invalid-command.md" true
      = .error (.validationError [("description", "required")])
  ∧ codexcliFromFile errorWitnessFS "proj" "no-frontmatter.md" true
      = .error (.validationError [("description", "required")]) :=
  ⟨(c7_fromFile_errors errorWitnessFS "proj" "missing.md").1 rfl,
   (c7_fromFile_errors errorWitnessFS "proj" "invalid-command.md").2.1
     (stringifyFrontmatter [("invalid", FmValue.bool true)] "Body content")
     [("invalid", FmValue.bool true)] "Body content"
     [("description", "required")] rfl
     (parseFile_stringifyFrontmatter [("invalid", FmValue.bool true)] "Body content") rfl,
   (c7_fromFile_errors errorWitnessFS "proj" "no-frontmatter.md").2.2
     "This is just plain content without frontmatter." rfl rfl⟩

/-- C8: parsing the file text produced by the serializer for any frontmatter
mapping and body yields back exactly that frontmatter and body — the
serialize-then-parse round trip is the identity. -/
theorem c8_serialize_parse_roundtrip (fm : Frontmatter) (body : String) :
    parseFile (stringifyFrontmatter fm body) = some (fm, body) :=
  parseFile_stringifyFrontmatter fm body

/-- C9: whenever `fromFile` succeeds it has read the file at the full nested
path under the tool directory, yet the artifact records only the basename of
the given relative path. -/
theorem c9_fromFile_basename (fs : FS) (baseDir rel : String) (v : Bool)
    (cmd : CodexcliCommand) :
    codexcliFromFile fs baseDir rel v = .ok cmd →
    cmd.relativeFilePath = basename rel
      ∧ (fs.read (codexPath baseDir rel)).isSome = true := by
  unfold codexcliFromFile
  intro h
  split at h
  · exact absurd h (by simp)
  · rename_i content hread
    refine ⟨?_, by simp [hread]⟩
    split at h
    · exact absurd h (by simp)
    · split at h
      · split at h
        · exact absurd h (by simp)
        · rw [← Except.ok.inj h]
      · rw [← Except.ok.inj h]

/-- Witness for C9: loading `subdir/nested-command.md` succeeds and the
artifact's relative file path is the basename `nested-command.md`. -/
theorem c9_fromFile_basename_witness :
    codexcliFromFile nestedFS "proj" "subdir/nested-command.md" true = .ok nestedCmd
  ∧ nestedCmd.relativeFilePath = basename "subdir/nested-command.md"
  ∧ basename "subdir/nested-command.md" = "nested-command.md" :=
  have h : codexcliFromFile nestedFS "proj" "subdir/nested-command.md" true = .ok nestedCmd :=
    rfl
  ⟨h, (c9_fromFile_basename nestedFS "proj" "subdir/nested-command.md" true nestedCmd h).1,
   rfl⟩

/-- C10: constructing an artifact with `validate := false` always succeeds,
whatever the frontmatter; validation is deferred, and the instance
`validate()` method returns a result object with `success := true` and a
null `error` on schema-conforming frontmatter instead of throwing. -/
theorem c10_deferred_validation (baseDir dir rel : String) (fm : Frontmatter)
    (body : String) :
    mkCodexcliCommand baseDir dir rel fm body false
      = .ok { baseDir := baseDir, relativeDirPath := dir, relativeFilePath := rel,
              frontmatter := fm, body := body }
  ∧ (∀ s, List.lookup "description" fm = some (FmValue.str s) →
       CodexcliCommand.validateResult
           { baseDir := baseDir, relativeDirPath := dir, relativeFilePath := rel,
             frontmatter := fm, body := body }
         = { success := true, error := none }) := by
  refine ⟨rfl, ?_⟩
  intro s h
  unfold CodexcliCommand.validateResult
  rw [validateFrontmatter_ok_of_description h]

/-- Witness for C10: construction succeeds on schema-violating frontmatter
when validation is off, and `validate()` reports success with a null error on
conforming frontmatter. -/
theorem c10_deferred_validation_witness :
    mkCodexcliCommand "." ".codex/commands" "test-command.md"
        [("invalid", FmValue.bool true)] "Test body" false
      = .ok { baseDir := ".", relativeDirPath := ".codex/commands",
              relativeFilePath := "test-command.md",
              frontmatter := [("invalid", FmValue.bool true)], body := "Test body" }
  ∧ CodexcliCommand.validateResult
        { baseDir := ".", relativeDirPath := ".codex/commands",
          relativeFilePath := "valid-command.md",
          frontmatter := [("description", FmValue.str "Valid description")],
          body := "Valid body" }
      = { success := true, error := none } :=
  ⟨(c10_deferred_validation "." ".codex/commands" "test-command.md"
      [("invalid", FmValue.bool true)] "Test body").1,
   (c10_deferred_validation "." ".codex/commands" "valid-command.md"
      [("description", FmValue.str "Valid description")] "Valid body").2
     "Valid description" rfl⟩

end Rulesync
